import Mathlib

/-!
Verification of the resource-descriptor validator of vault-sidekick
(`vault_resource.go`), shallowly embedded in Lean 4.

Modelling choices, mirroring the Go source:

* `VaultResource` embeds the Go struct of the same name; `options` (a Go
  `map[string]string`) is embedded as an association list recording one
  particular iteration order of the map.  A Go map has unique keys, which
  appears as a `Nodup` hypothesis on the key list where it matters, and an
  unspecified iteration order, which appears as quantification over
  permutations of the list.
* `time.ParseDuration` (Go standard library, uses `float64` internally) and
  the filesystem probe are not embedded bit-for-bit; they enter as oracle
  parameters `pd : String → Option Int` (result in nanoseconds, as Go's
  `time.Duration`) and `fx : String → Bool`.  `strconv.ParseBool` and the
  anchored format regular expression are embedded concretely.
* Go errors built with `fmt.Errorf` are opaque values distinguished only by
  their message; they are embedded as the inductive `VErr`, one constructor
  per `fmt.Errorf` site (`VErr.message` reproduces the Go message text).
  `IsValid` in Go wraps inner errors with extra context text, which changes
  the message but not the error site; the embedding returns the inner `VErr`.
* The Go methods mutate the receiver through a pointer, so the embedding
  threads the state explicitly: `isValidOptions` and `IsValid` return the
  possibly-updated descriptor together with the optional error, exactly as
  the Go receiver is left after the call.
-/

/-- Option key `fn`: the filename of the resource (Go `OptionFilename`). -/
def OptionFilename : String := "fn"

/-- Option key `fmt`: the output format (Go `OptionFormat`). -/
def OptionFormat : String := "fmt"

/-- Option key `cn`: common name, used by the PKI resource (Go `OptionCommonName`). -/
def OptionCommonName : String := "cn"

/-- Option key `tpl`: the full path to a template (Go `OptionTemplatePath`). -/
def OptionTemplatePath : String := "tpl"

/-- Option key `rn`: renew the resource (Go `OptionRenewal`). -/
def OptionRenewal : String := "rn"

/-- Option key `rv`: revoke an old lease (Go `OptionRevoke`). -/
def OptionRevoke : String := "rv"

/-- Option key `up`: override the lease of the resource (Go `OptionUpdate`). -/
def OptionUpdate : String := "up"

/-- The anchored regular expression `^(yaml|json|ini|txt|cert|csv)$` of
`resourceFormatRegex`: it matches exactly these six strings. -/
def resourceFormatMatch (s : String) : Bool :=
  s = "yaml" || s = "json" || s = "ini" || s = "txt" || s = "cert" || s = "csv"

/-- Membership in the Go map literal `validResources`. -/
def validResources (s : String) : Bool :=
  s = "pki" || s = "aws" || s = "secret" || s = "mysql" || s = "tpl" ||
    s = "postgres" || s = "cassandra"

/-- Go `strconv.ParseBool`: the exact set of accepted literals. -/
def parseBool (s : String) : Option Bool :=
  if s = "1" || s = "t" || s = "T" || s = "true" || s = "TRUE" || s = "True" then
    some true
  else if s = "0" || s = "f" || s = "F" || s = "false" || s = "FALSE" || s = "False" then
    some false
  else
    none

/-- First-occurrence lookup in the option association list; `none` models a
Go map access with `found = false`. -/
def optLookup : List (String × String) → String → Option String
  | [], _ => none
  | (k, v) :: rest, key => if k = key then some v else optLookup rest key

/-- Go map read `m[k]` in value position: the zero value `""` when absent. -/
def optFetch (l : List (String × String)) (key : String) : String :=
  (optLookup l key).getD ""

/-- The Go `VaultResource` struct. -/
@[ext]
structure VaultResource where
  resource : String
  name : String
  format : String
  renewable : Bool
  revoked : Bool
  update : Int
  options : List (String × String)
  deriving Repr, DecidableEq

/-- Go `defaultVaultResource`: `resource`, `name` and `update` take their Go
zero values. -/
def defaultVaultResource : VaultResource :=
  { resource := "", name := "", format := "yaml", renewable := false,
    revoked := false, update := 0, options := [] }

/-- Go `GetFilename`: the `fn` option verbatim when present, otherwise
`name.resource`. -/
def GetFilename (r : VaultResource) : String :=
  match optLookup r.options OptionFilename with
  | some path => path
  | none => r.name ++ "." ++ r.resource

/-- Go `String()` on `VaultResource`: `resource/name`. -/
def VaultResource.toStr (r : VaultResource) : String :=
  r.resource ++ "/" ++ r.name

/-- Validation errors: one constructor per `fmt.Errorf` site of the
validator. -/
inductive VErr where
  | UnsupportedResourceType (value : String)
  | InvalidFormat (value : String)
  | InvalidDuration (value : String)
  | InvalidBoolean (option value : String)
  | TemplateNotFound (path : String)
  | MissingRequiredOption (resource option : String)
  deriving Repr, DecidableEq

/-- The Go message text of each error site (before the extra wrapping that
`IsValid` adds). -/
def VErr.message : VErr → String
  | .UnsupportedResourceType v => "unsupported resource type: " ++ v
  | .InvalidFormat v => "unsupported output format: " ++ v
  | .InvalidDuration v =>
      "the update option: " ++ v ++ " is not value, should be a duration format"
  | .InvalidBoolean opt v =>
      if opt = OptionRevoke then
        "the revoke option: " ++ v ++ " is invalid, should be a boolean"
      else
        "the renewal option: " ++ v ++ " is invalid, should be a boolean"
  | .TemplateNotFound p => "the template file: " ++ p ++ " does not exist"
  | .MissingRequiredOption res _ =>
      if res = "pki" then "pki resource requires a common name specified"
      else "template resource requires a template path option"

/-- An error raised inside `isValidOptions` (as opposed to the resource-type
and required-option checks). -/
def VErr.isOptionErr : VErr → Bool
  | .InvalidFormat _ => true
  | .InvalidDuration _ => true
  | .InvalidBoolean _ _ => true
  | .TemplateNotFound _ => true
  | _ => false

/-- One iteration of the `switch` inside Go `isValidOptions`, at the entry
`(opt, val)`; `full` stays the whole option map, because the Go code reads
`r.options[OptionFormat]` from the unmodified map inside the loop.  `pd` is
the `time.ParseDuration` oracle, `fx` the `fileExists` oracle.  Returns the
error, if any, and the receiver as the iteration leaves it (a failing
iteration does not write any field). -/
def stepEntry (pd : String → Option Int) (fx : String → Bool)
    (full : List (String × String)) (s : VaultResource) :
    String × String → Option VErr × VaultResource
  | (opt, val) =>
    if opt = OptionFormat then
      if resourceFormatMatch (optFetch full OptionFormat) then
        (none, { s with format := val })
      else
        (some (.InvalidFormat (optFetch full OptionFormat)), s)
    else if opt = OptionUpdate then
      match pd val with
      | some d => (none, { s with update := d })
      | none => (some (.InvalidDuration val), s)
    else if opt = OptionRevoke then
      match parseBool val with
      | some b => (none, { s with revoked := b })
      | none => (some (.InvalidBoolean OptionRevoke val), s)
    else if opt = OptionRenewal then
      match parseBool val with
      | some b => (none, { s with renewable := b })
      | none => (some (.InvalidBoolean OptionRenewal val), s)
    else if opt = OptionFilename then
      (none, s)
    else if opt = OptionCommonName then
      (none, s)
    else if opt = OptionTemplatePath then
      if fx val then (none, s)
      else (some (.TemplateNotFound val), s)
    else
      (none, s)

/-- The loop of Go `isValidOptions`: run `stepEntry` over the remaining
entries `l`, returning on the first error as the Go `return` does. -/
def goOptions (pd : String → Option Int) (fx : String → Bool)
    (full : List (String × String)) :
    List (String × String) → VaultResource → Option VErr × VaultResource
  | [], s => (none, s)
  | e :: rest, s =>
    match stepEntry pd fx full s e with
    | (some err, s') => (some err, s')
    | (none, s') => goOptions pd fx full rest s'

/-- Go `isValidOptions`: iterate over every entry of the option map. -/
def isValidOptions (pd : String → Option Int) (fx : String → Bool)
    (r : VaultResource) : Option VErr × VaultResource :=
  goOptions pd fx r.options r.options r

/-- Go `isValidResource`: the per-resource-type required-option check. -/
def isValidResource (r : VaultResource) : Option VErr :=
  if r.resource = "pki" then
    if (optLookup r.options OptionCommonName).isSome then none
    else some (.MissingRequiredOption "pki" OptionCommonName)
  else if r.resource = "tpl" then
    if (optLookup r.options OptionTemplatePath).isSome then none
    else some (.MissingRequiredOption "tpl" OptionTemplatePath)
  else
    none

/-- Go `IsValid`: resource-type check, then option typing, then required
options, short-circuiting on the first failure; the second component is the
receiver as the call leaves it. -/
def IsValid (pd : String → Option Int) (fx : String → Bool)
    (r : VaultResource) : Option VErr × VaultResource :=
  if validResources r.resource then
    let res := isValidOptions pd fx r
    match res.1 with
    | some e => (some e, res.2)
    | none =>
      match isValidResource res.2 with
      | some e => (some e, res.2)
      | none => (none, res.2)
  else
    (some (.UnsupportedResourceType r.resource), r)

/-- The check that the loop body of `isValidOptions` applies to a single
entry, relative to the whole map `full`. -/
def entryOk (pd : String → Option Int) (fx : String → Bool)
    (full : List (String × String)) : String × String → Bool
  | (opt, val) =>
    if opt = OptionFormat then resourceFormatMatch (optFetch full OptionFormat)
    else if opt = OptionUpdate then (pd val).isSome
    else if opt = OptionRevoke then (parseBool val).isSome
    else if opt = OptionRenewal then (parseBool val).isSome
    else if opt = OptionFilename then true
    else if opt = OptionCommonName then true
    else if opt = OptionTemplatePath then fx val
    else true

/-- The error the loop body of `isValidOptions` raises at an entry that
fails its check. -/
def entryErr (full : List (String × String)) : String × String → VErr
  | (opt, val) =>
    if opt = OptionFormat then .InvalidFormat (optFetch full OptionFormat)
    else if opt = OptionUpdate then .InvalidDuration val
    else if opt = OptionRevoke then .InvalidBoolean OptionRevoke val
    else if opt = OptionRenewal then .InvalidBoolean OptionRenewal val
    else .TemplateNotFound val

/-- Value of the last entry carrying a given key, the write that survives
the iteration. -/
def lastVal : List (String × String) → String → Option String
  | [], _ => none
  | (k, v) :: rest, key =>
    match lastVal rest key with
    | some w => some w
    | none => if k = key then some v else none

/-- A concrete `time.ParseDuration` oracle used in witnesses: it accepts
`2h` only. -/
def pdTest : String → Option Int := fun s =>
  if s = "2h" then some 7200000000000 else none

/-- A concrete filesystem oracle used in witnesses: exactly one template
file exists. -/
def fxTest : String → Bool := fun s => s = "/etc/template.tpl"

/-- Concrete descriptor with an unsupported resource type. -/
def rBogus : VaultResource :=
  { defaultVaultResource with
      resource := "bogus", name := "x", options := [("fmt", "json")] }

/-- Concrete `secret` descriptor without options. -/
def rBase : VaultResource :=
  { defaultVaultResource with resource := "secret", name := "db" }

/-- Concrete descriptor with a format option. -/
def rFmt : VaultResource := { rBase with options := [("fmt", "json")] }

/-- Concrete descriptor with duration and boolean options. -/
def rTyped : VaultResource :=
  { rBase with options := [("up", "2h"), ("rn", "true"), ("rv", "false")] }

/-- Concrete `pki` descriptor without a common name. -/
def rPkiNoCn : VaultResource :=
  { defaultVaultResource with resource := "pki", name := "web" }

/-- Concrete `pki` descriptor with an empty common name. -/
def rPkiEmptyCn : VaultResource :=
  { defaultVaultResource with
      resource := "pki", name := "web", options := [("cn", "")] }

/-- Concrete `tpl` descriptor pointing at the one existing template. -/
def rTpl : VaultResource :=
  { defaultVaultResource with
      resource := "tpl", name := "tp",
      options := [("tpl", "/etc/template.tpl")] }

/-- Concrete descriptor with a filename override. -/
def rFn : VaultResource := { rBase with options := [("fn", "/a/b")] }

/-- Concrete descriptor whose format option parses before its update option
fails. -/
def rPartial : VaultResource :=
  { rBase with options := [("fmt", "json"), ("up", "abc")] }

/-- One iteration order of a two-entry option map. -/
def l1W : List (String × String) := [("fmt", "json"), ("up", "2h")]

/-- The other iteration order of the same option map. -/
def l2W : List (String × String) := [("up", "2h"), ("fmt", "json")]

/-- Worked example from the specification: a `secret` descriptor with
`fmt = json` and `up = 2h` validates, caches both values, and its default
filename is `db-pass.secret`. -/
theorem spec_worked_example :
    IsValid pdTest fxTest
      { defaultVaultResource with
          resource := "secret", name := "db-pass",
          options := [("fmt", "json"), ("up", "2h")] } =
    (none,
      { defaultVaultResource with
          resource := "secret", name := "db-pass",
          format := "json", update := 7200000000000,
          options := [("fmt", "json"), ("up", "2h")] }) ∧
    GetFilename
      { defaultVaultResource with resource := "secret", name := "db-pass" } =
    "db-pass.secret" := by
  decide

/-! ## Helper lemmas about the option loop -/

theorem optLookup_eq_of_mem_nodup {l : List (String × String)} {k v : String}
    (hnd : (l.map Prod.fst).Nodup) (hmem : (k, v) ∈ l) :
    optLookup l k = some v := by
  induction l with
  | nil => simp at hmem
  | cons e rest ih =>
    obtain ⟨k', v'⟩ := e
    simp only [List.map_cons, List.nodup_cons] at hnd
    rcases List.mem_cons.mp hmem with heq | hmem'
    · injection heq with h1 h2
      subst h1; subst h2
      simp [optLookup]
    · have hk : ¬ k' = k := by
        intro h
        exact hnd.1 (h ▸ List.mem_map.mpr ⟨(k, v), hmem', rfl⟩)
      simpa [optLookup, hk] using ih hnd.2 hmem'

theorem entryOk_of_other (pd : String → Option Int) (fx : String → Bool)
    (full : List (String × String)) (opt val : String)
    (h1 : opt ≠ OptionFormat) (h2 : opt ≠ OptionUpdate)
    (h3 : opt ≠ OptionRevoke) (h4 : opt ≠ OptionRenewal)
    (h5 : opt ≠ OptionTemplatePath) :
    entryOk pd fx full (opt, val) = true := by
  simp only [entryOk]
  split_ifs <;> simp_all

theorem stepEntry_ok_iff (pd : String → Option Int) (fx : String → Bool)
    (full : List (String × String)) (s : VaultResource) (e : String × String) :
    (stepEntry pd fx full s e).1 = none ↔ entryOk pd fx full e = true := by
  obtain ⟨opt, val⟩ := e
  simp only [stepEntry, entryOk]
  split_ifs <;> cases hpd : pd val <;> cases hpb : parseBool val <;> simp_all

theorem stepEntry_err (pd : String → Option Int) (fx : String → Bool)
    (full : List (String × String)) (s : VaultResource) (e : String × String)
    (hbad : entryOk pd fx full e = false) :
    stepEntry pd fx full s e = (some (entryErr full e), s) := by
  obtain ⟨opt, val⟩ := e
  simp only [entryOk] at hbad
  simp only [stepEntry, entryErr]
  split_ifs at hbad ⊢ <;>
    cases hpd : pd val <;> cases hpb : parseBool val <;> simp_all

theorem stepEntry_core (pd : String → Option Int) (fx : String → Bool)
    (full : List (String × String)) (s : VaultResource) (e : String × String) :
    (stepEntry pd fx full s e).2.resource = s.resource ∧
      (stepEntry pd fx full s e).2.name = s.name ∧
      (stepEntry pd fx full s e).2.options = s.options := by
  obtain ⟨opt, val⟩ := e
  simp only [stepEntry]
  split_ifs <;> cases hpd : pd val <;> cases hpb : parseBool val <;> simp_all

theorem stepEntry_format (pd : String → Option Int) (fx : String → Bool)
    (full : List (String × String)) (s : VaultResource) (opt val : String)
    (h : (stepEntry pd fx full s (opt, val)).1 = none) :
    (stepEntry pd fx full s (opt, val)).2.format =
      if opt = OptionFormat then val else s.format := by
  simp only [stepEntry] at h ⊢
  split_ifs at h ⊢ <;> cases hpd : pd val <;> cases hpb : parseBool val <;>
    simp_all

theorem stepEntry_update (pd : String → Option Int) (fx : String → Bool)
    (full : List (String × String)) (s : VaultResource) (opt val : String)
    (h : (stepEntry pd fx full s (opt, val)).1 = none) :
    (stepEntry pd fx full s (opt, val)).2.update =
      if opt = OptionUpdate then (pd val).getD 0 else s.update := by
  simp only [stepEntry, OptionFormat, OptionUpdate, OptionRevoke,
    OptionRenewal, OptionFilename, OptionCommonName, OptionTemplatePath]
    at h ⊢
  split_ifs at h ⊢ <;> cases hpd : pd val <;> cases hpb : parseBool val <;>
    simp_all

theorem stepEntry_revoked (pd : String → Option Int) (fx : String → Bool)
    (full : List (String × String)) (s : VaultResource) (opt val : String)
    (h : (stepEntry pd fx full s (opt, val)).1 = none) :
    (stepEntry pd fx full s (opt, val)).2.revoked =
      if opt = OptionRevoke then (parseBool val).getD false else s.revoked := by
  simp only [stepEntry, OptionFormat, OptionUpdate, OptionRevoke,
    OptionRenewal, OptionFilename, OptionCommonName, OptionTemplatePath]
    at h ⊢
  split_ifs at h ⊢ <;> cases hpd : pd val <;> cases hpb : parseBool val <;>
    simp_all

theorem stepEntry_renewable (pd : String → Option Int) (fx : String → Bool)
    (full : List (String × String)) (s : VaultResource) (opt val : String)
    (h : (stepEntry pd fx full s (opt, val)).1 = none) :
    (stepEntry pd fx full s (opt, val)).2.renewable =
      if opt = OptionRenewal then (parseBool val).getD false else s.renewable := by
  simp only [stepEntry, OptionFormat, OptionUpdate, OptionRevoke,
    OptionRenewal, OptionFilename, OptionCommonName, OptionTemplatePath]
    at h ⊢
  split_ifs at h ⊢ <;> cases hpd : pd val <;> cases hpb : parseBool val <;>
    simp_all

theorem goOptions_core (pd : String → Option Int) (fx : String → Bool)
    (full : List (String × String)) (l : List (String × String))
    (s : VaultResource) :
    (goOptions pd fx full l s).2.resource = s.resource ∧
      (goOptions pd fx full l s).2.name = s.name ∧
      (goOptions pd fx full l s).2.options = s.options := by
  induction l generalizing s with
  | nil => simp [goOptions]
  | cons e rest ih =>
    have hc := stepEntry_core pd fx full s e
    simp only [goOptions]
    rcases hstep : stepEntry pd fx full s e with ⟨err, s'⟩
    rw [hstep] at hc
    cases err with
    | some er => simpa using hc
    | none =>
      obtain ⟨h1, h2, h3⟩ := hc
      obtain ⟨g1, g2, g3⟩ := ih s'
      exact ⟨g1.trans h1, g2.trans h2, g3.trans h3⟩

theorem goOptions_ok_iff (pd : String → Option Int) (fx : String → Bool)
    (full : List (String × String)) (l : List (String × String))
    (s : VaultResource) :
    (goOptions pd fx full l s).1 = none ↔
      ∀ e ∈ l, entryOk pd fx full e = true := by
  induction l generalizing s with
  | nil => simp [goOptions]
  | cons e rest ih =>
    have hok := stepEntry_ok_iff pd fx full s e
    simp only [goOptions]
    rcases hstep : stepEntry pd fx full s e with ⟨err, s'⟩
    rw [hstep] at hok
    cases err with
    | some er =>
      have hbad : entryOk pd fx full e = false := by simpa using hok
      simp [List.forall_mem_cons, hbad]
    | none =>
      have hgood : entryOk pd fx full e = true := by simpa using hok
      simp [List.forall_mem_cons, hgood, ih s']

theorem goOptions_field {α : Type} (pd : String → Option Int)
    (fx : String → Bool) (full : List (String × String))
    (g : VaultResource → α) (key : String) (wv : String → α)
    (hstep : ∀ s opt val, (stepEntry pd fx full s (opt, val)).1 = none →
      g (stepEntry pd fx full s (opt, val)).2 =
        if opt = key then wv val else g s)
    (l : List (String × String)) (s : VaultResource)
    (h : (goOptions pd fx full l s).1 = none) :
    g (goOptions pd fx full l s).2 =
      match lastVal l key with
      | some v => wv v
      | none => g s := by
  induction l generalizing s with
  | nil => simp [goOptions, lastVal]
  | cons e rest ih =>
    obtain ⟨opt, val⟩ := e
    simp only [goOptions] at h ⊢
    rcases hstep2 : stepEntry pd fx full s (opt, val) with ⟨err, s'⟩
    rw [hstep2] at h
    cases err with
    | some er => simp at h
    | none =>
      have h' : (goOptions pd fx full rest s').1 = none := h
      have hf := hstep s opt val (by rw [hstep2])
      rw [hstep2] at hf
      show g (goOptions pd fx full rest s').2 = _
      rw [ih s' h']
      simp only [lastVal]
      cases hl : lastVal rest key with
      | some w => simp
      | none =>
        by_cases hopt : opt = key <;> simp [hopt, hf]

theorem goOptions_fail (pd : String → Option Int) (fx : String → Bool)
    (full : List (String × String)) {l : List (String × String)}
    {k v : String} (s : VaultResource)
    (hnd : (l.map Prod.fst).Nodup) (hmem : (k, v) ∈ l)
    (hbad : entryOk pd fx full (k, v) = false)
    (hoth : ∀ e ∈ l, e.1 ≠ k → entryOk pd fx full e = true) :
    (goOptions pd fx full l s).1 = some (entryErr full (k, v)) := by
  induction l generalizing s with
  | nil => simp at hmem
  | cons e rest ih =>
    obtain ⟨k', v'⟩ := e
    simp only [List.map_cons, List.nodup_cons] at hnd
    simp only [goOptions]
    by_cases hk : k' = k
    · rcases List.mem_cons.mp hmem with heq | hmem'
      · rw [← heq, stepEntry_err pd fx full s (k, v) hbad]
      · exact absurd (List.mem_map.mpr ⟨(k, v), hmem', hk.symm ▸ rfl⟩) hnd.1
    · have hokhead : entryOk pd fx full (k', v') = true :=
        hoth (k', v') (List.mem_cons_self _ _) hk
      have hstep1 : (stepEntry pd fx full s (k', v')).1 = none :=
        (stepEntry_ok_iff pd fx full s (k', v')).mpr hokhead
      rcases hstep : stepEntry pd fx full s (k', v') with ⟨err, s'⟩
      rw [hstep] at hstep1
      cases err with
      | some er => simp at hstep1
      | none =>
        have hmem' : (k, v) ∈ rest := by
          rcases List.mem_cons.mp hmem with heq | h
          · injection heq with h1 h2
            exact absurd h1.symm hk
          · exact h
        exact ih s' hnd.2 hmem'
          (fun e he hne => hoth e (List.mem_cons_of_mem _ he) hne)

theorem optLookup_eq_none_iff {l : List (String × String)} {k : String} :
    optLookup l k = none ↔ k ∉ l.map Prod.fst := by
  induction l with
  | nil => simp [optLookup]
  | cons e rest ih =>
    obtain ⟨k', v'⟩ := e
    simp only [optLookup, List.map_cons, List.mem_cons, not_or]
    by_cases hk : k' = k
    · subst hk
      simp
    · have : ¬ k = k' := fun hh => hk hh.symm
      simp [hk, this, ih]

theorem mem_of_optLookup_eq_some :
    ∀ {l : List (String × String)} {k v : String},
      optLookup l k = some v → (k, v) ∈ l := by
  intro l
  induction l with
  | nil => intro k v h; simp [optLookup] at h
  | cons e rest ih =>
    intro k v h
    obtain ⟨k', v'⟩ := e
    simp only [optLookup] at h
    by_cases hk : k' = k
    · subst hk
      simp only [if_pos rfl] at h
      injection h with h1
      subst h1
      exact List.mem_cons_self _ _
    · simp only [if_neg hk] at h
      exact List.mem_cons_of_mem _ (ih h)

theorem optLookup_perm {l₁ l₂ : List (String × String)} (hperm : l₁.Perm l₂)
    (hnd : (l₁.map Prod.fst).Nodup) (k : String) :
    optLookup l₁ k = optLookup l₂ k := by
  have hnd2 : (l₂.map Prod.fst).Nodup := ((hperm.map Prod.fst).nodup_iff).mp hnd
  cases h1 : optLookup l₁ k with
  | some v =>
    exact (optLookup_eq_of_mem_nodup hnd2
      (hperm.mem_iff.mp (mem_of_optLookup_eq_some h1))).symm
  | none =>
    have hk : k ∉ l₁.map Prod.fst := optLookup_eq_none_iff.mp h1
    have hk2 : k ∉ l₂.map Prod.fst := fun hh =>
      hk (((hperm.map Prod.fst).mem_iff).mpr hh)
    exact (optLookup_eq_none_iff.mpr hk2).symm

theorem lastVal_eq_optLookup {l : List (String × String)}
    (hnd : (l.map Prod.fst).Nodup) (k : String) :
    lastVal l k = optLookup l k := by
  induction l with
  | nil => rfl
  | cons e rest ih =>
    obtain ⟨k', v'⟩ := e
    simp only [List.map_cons, List.nodup_cons] at hnd
    simp only [lastVal, optLookup, ih hnd.2]
    by_cases hk : k' = k
    · subst hk
      have hnone : optLookup rest k' = none :=
        optLookup_eq_none_iff.mpr hnd.1
      simp [hnone]
    · simp only [if_neg hk]
      cases optLookup rest k <;> simp

/-! ## Lemmas about isValidOptions and IsValid -/

theorem isValidOptions_core (pd : String → Option Int) (fx : String → Bool)
    (r : VaultResource) :
    (isValidOptions pd fx r).2.resource = r.resource ∧
      (isValidOptions pd fx r).2.name = r.name ∧
      (isValidOptions pd fx r).2.options = r.options :=
  goOptions_core pd fx r.options r.options r

theorem isValidOptions_ok_iff (pd : String → Option Int) (fx : String → Bool)
    (r : VaultResource) :
    (isValidOptions pd fx r).1 = none ↔
      ∀ e ∈ r.options, entryOk pd fx r.options e = true :=
  goOptions_ok_iff pd fx r.options r.options r

theorem isValidOptions_format (pd : String → Option Int) (fx : String → Bool)
    (r : VaultResource) (h : (isValidOptions pd fx r).1 = none) :
    (isValidOptions pd fx r).2.format =
      match lastVal r.options OptionFormat with
      | some v => v
      | none => r.format :=
  goOptions_field pd fx r.options VaultResource.format OptionFormat
    (fun v => v)
    (fun s opt val hh => stepEntry_format pd fx r.options s opt val hh)
    r.options r h

theorem isValidOptions_update (pd : String → Option Int) (fx : String → Bool)
    (r : VaultResource) (h : (isValidOptions pd fx r).1 = none) :
    (isValidOptions pd fx r).2.update =
      match lastVal r.options OptionUpdate with
      | some v => (pd v).getD 0
      | none => r.update :=
  goOptions_field pd fx r.options VaultResource.update OptionUpdate
    (fun v => (pd v).getD 0)
    (fun s opt val hh => stepEntry_update pd fx r.options s opt val hh)
    r.options r h

theorem isValidOptions_revoked (pd : String → Option Int) (fx : String → Bool)
    (r : VaultResource) (h : (isValidOptions pd fx r).1 = none) :
    (isValidOptions pd fx r).2.revoked =
      match lastVal r.options OptionRevoke with
      | some v => (parseBool v).getD false
      | none => r.revoked :=
  goOptions_field pd fx r.options VaultResource.revoked OptionRevoke
    (fun v => (parseBool v).getD false)
    (fun s opt val hh => stepEntry_revoked pd fx r.options s opt val hh)
    r.options r h

theorem isValidOptions_renewable (pd : String → Option Int) (fx : String → Bool)
    (r : VaultResource) (h : (isValidOptions pd fx r).1 = none) :
    (isValidOptions pd fx r).2.renewable =
      match lastVal r.options OptionRenewal with
      | some v => (parseBool v).getD false
      | none => r.renewable :=
  goOptions_field pd fx r.options VaultResource.renewable OptionRenewal
    (fun v => (parseBool v).getD false)
    (fun s opt val hh => stepEntry_renewable pd fx r.options s opt val hh)
    r.options r h

theorem isValidResource_congr (s t : VaultResource)
    (h1 : s.resource = t.resource) (h2 : s.options = t.options) :
    isValidResource s = isValidResource t := by
  simp only [isValidResource, h1, h2]

theorem IsValid_bad_resource (pd : String → Option Int) (fx : String → Bool)
    (r : VaultResource) (h : validResources r.resource = false) :
    IsValid pd fx r = (some (.UnsupportedResourceType r.resource), r) := by
  simp [IsValid, h]

theorem IsValid_snd (pd : String → Option Int) (fx : String → Bool)
    (r : VaultResource) (hv : validResources r.resource = true) :
    (IsValid pd fx r).2 = (isValidOptions pd fx r).2 := by
  simp only [IsValid, hv, if_true]
  cases herr : (isValidOptions pd fx r).1 with
  | some e => rfl
  | none => cases hvr : isValidResource (isValidOptions pd fx r).2 <;> rfl

theorem IsValid_fst_optErr (pd : String → Option Int) (fx : String → Bool)
    (r : VaultResource) (hv : validResources r.resource = true) (e : VErr)
    (herr : (isValidOptions pd fx r).1 = some e) :
    (IsValid pd fx r).1 = some e := by
  simp only [IsValid, hv, if_true]
  rw [herr]

theorem IsValid_fst_after_options (pd : String → Option Int)
    (fx : String → Bool) (r : VaultResource)
    (hv : validResources r.resource = true)
    (hok : (isValidOptions pd fx r).1 = none) :
    (IsValid pd fx r).1 = isValidResource r := by
  have hres : isValidResource (isValidOptions pd fx r).2 = isValidResource r :=
    isValidResource_congr _ _ (isValidOptions_core pd fx r).1
      (isValidOptions_core pd fx r).2.2
  simp only [IsValid, hv, if_true]
  rw [hok]
  rw [hres]
  cases hvr : isValidResource r <;> rfl

theorem IsValid_ok_iff (pd : String → Option Int) (fx : String → Bool)
    (r : VaultResource) :
    (IsValid pd fx r).1 = none ↔
      validResources r.resource = true ∧
        (∀ e ∈ r.options, entryOk pd fx r.options e = true) ∧
        isValidResource r = none := by
  by_cases hv : validResources r.resource
  · cases herr : (isValidOptions pd fx r).1 with
    | some e =>
      have hne : ¬ ∀ e ∈ r.options, entryOk pd fx r.options e = true := by
        rw [← isValidOptions_ok_iff pd fx r, herr]
        simp
      rw [IsValid_fst_optErr pd fx r hv e herr]
      constructor
      · intro h
        simp at h
      · rintro ⟨-, hall, -⟩
        exact absurd hall hne
    | none =>
      have hall : ∀ e ∈ r.options, entryOk pd fx r.options e = true :=
        (isValidOptions_ok_iff pd fx r).mp herr
      rw [IsValid_fst_after_options pd fx r hv herr]
      constructor
      · intro h
        exact ⟨hv, hall, h⟩
      · rintro ⟨-, -, h⟩
        exact h
  · rw [IsValid_bad_resource pd fx r (by simpa using hv)]
    simp
    intro h
    exact absurd h hv

theorem stepEntry_format_other (pd : String → Option Int) (fx : String → Bool)
    (full : List (String × String)) (s : VaultResource) (opt val : String)
    (hne : opt ≠ OptionFormat) :
    (stepEntry pd fx full s (opt, val)).2.format = s.format := by
  simp only [stepEntry]
  split_ifs <;> cases hpd : pd val <;> cases hpb : parseBool val <;> simp_all

theorem goOptions_format_no_key (pd : String → Option Int) (fx : String → Bool)
    (full : List (String × String)) (l : List (String × String))
    (s : VaultResource) (h : ∀ e ∈ l, e.1 ≠ OptionFormat) :
    (goOptions pd fx full l s).2.format = s.format := by
  induction l generalizing s with
  | nil => simp [goOptions]
  | cons e rest ih =>
    obtain ⟨opt, val⟩ := e
    simp only [goOptions]
    rcases hstep : stepEntry pd fx full s (opt, val) with ⟨err, s'⟩
    have hne : opt ≠ OptionFormat := h (opt, val) (List.mem_cons_self _ _)
    have hf : s'.format = s.format := by
      have hh := stepEntry_format_other pd fx full s opt val hne
      rw [hstep] at hh
      exact hh
    cases err with
    | some er => exact hf
    | none =>
      exact (ih s' (fun e he => h e (List.mem_cons_of_mem _ he))).trans hf

theorem entryErr_isOptionErr (full : List (String × String))
    (e : String × String) : (entryErr full e).isOptionErr = true := by
  obtain ⟨opt, val⟩ := e
  simp only [entryErr]
  split_ifs <;> simp [VErr.isOptionErr]

theorem stepEntry_err_kind (pd : String → Option Int) (fx : String → Bool)
    (full : List (String × String)) (s : VaultResource) (e : String × String)
    (er : VErr) (s' : VaultResource)
    (h : stepEntry pd fx full s e = (some er, s')) : er.isOptionErr = true := by
  by_cases hok : entryOk pd fx full e = true
  · have hnone := (stepEntry_ok_iff pd fx full s e).mpr hok
    rw [h] at hnone
    simp at hnone
  · have hbad : entryOk pd fx full e = false := by simpa using hok
    have h2 := stepEntry_err pd fx full s e hbad
    rw [h] at h2
    injection h2 with h3 h4
    injection h3 with h3
    rw [h3]
    exact entryErr_isOptionErr full e

theorem goOptions_err_isOptionErr (pd : String → Option Int)
    (fx : String → Bool) (full : List (String × String))
    (l : List (String × String)) (s : VaultResource) (e : VErr)
    (h : (goOptions pd fx full l s).1 = some e) : e.isOptionErr = true := by
  induction l generalizing s with
  | nil => simp [goOptions] at h
  | cons en rest ih =>
    simp only [goOptions] at h
    rcases hstep : stepEntry pd fx full s en with ⟨err, s'⟩
    rw [hstep] at h
    cases err with
    | some er =>
      have her : er = e := by simpa using h
      subst her
      exact stepEntry_err_kind pd fx full s en er s' hstep
    | none => exact ih s' h

theorem isValidResource_err (r : VaultResource) (e : VErr)
    (h : isValidResource r = some e) :
    e = .MissingRequiredOption "pki" OptionCommonName ∨
      e = .MissingRequiredOption "tpl" OptionTemplatePath := by
  simp only [isValidResource] at h
  split_ifs at h <;> simp_all

theorem snd_eq_of_mem_nodup {l : List (String × String)} {k v w : String}
    (hnd : (l.map Prod.fst).Nodup) (hmem : (k, w) ∈ l)
    (hlook : optLookup l k = some v) : w = v := by
  have hw := optLookup_eq_of_mem_nodup hnd hmem
  rw [hlook] at hw
  injection hw with hw
  exact hw.symm

theorem entryOk_congr_full (pd : String → Option Int) (fx : String → Bool)
    (full₁ full₂ : List (String × String))
    (h : optLookup full₁ OptionFormat = optLookup full₂ OptionFormat)
    (e : String × String) :
    entryOk pd fx full₁ e = entryOk pd fx full₂ e := by
  obtain ⟨opt, val⟩ := e
  simp [entryOk, optFetch, h]

theorem IsValid_core (pd : String → Option Int) (fx : String → Bool)
    (r : VaultResource) :
    (IsValid pd fx r).2.resource = r.resource ∧
      (IsValid pd fx r).2.name = r.name ∧
      (IsValid pd fx r).2.options = r.options := by
  by_cases hv : validResources r.resource
  · rw [IsValid_snd pd fx r hv]
    exact isValidOptions_core pd fx r
  · rw [IsValid_bad_resource pd fx r (by simpa using hv)]
    exact ⟨rfl, rfl, rfl⟩

theorem allOk_of_othersOk (pd : String → Option Int) (fx : String → Bool)
    {l : List (String × String)} {k v : String}
    (hnd : (l.map Prod.fst).Nodup)
    (hlook : optLookup l k = some v)
    (hoth : ∀ e ∈ l, e.1 ≠ k → entryOk pd fx l e = true)
    (hk : entryOk pd fx l (k, v) = true) :
    ∀ e ∈ l, entryOk pd fx l e = true := by
  intro e he
  obtain ⟨k', w⟩ := e
  by_cases hek : k' = k
  · subst hek
    have hw : w = v := snd_eq_of_mem_nodup hnd he hlook
    rw [hw]
    exact hk
  · exact hoth (k', w) he hek

theorem validResources_iff_mem (s : String) :
    validResources s = true ↔
      s ∈ ["pki", "aws", "secret", "mysql", "tpl", "postgres", "cassandra"] := by
  simp only [validResources, Bool.or_eq_true, decide_eq_true_eq,
    List.mem_cons, List.not_mem_nil, or_false]
  tauto

theorem entryOk_fmt (pd : String → Option Int) (fx : String → Bool)
    (full : List (String × String)) (v : String) :
    entryOk pd fx full (OptionFormat, v) =
      resourceFormatMatch (optFetch full OptionFormat) := by
  simp [entryOk]

theorem entryOk_update (pd : String → Option Int) (fx : String → Bool)
    (full : List (String × String)) (v : String) :
    entryOk pd fx full (OptionUpdate, v) = (pd v).isSome := by
  simp [entryOk, OptionFormat, OptionUpdate]

theorem entryOk_renewal (pd : String → Option Int) (fx : String → Bool)
    (full : List (String × String)) (v : String) :
    entryOk pd fx full (OptionRenewal, v) = (parseBool v).isSome := by
  simp [entryOk, OptionFormat, OptionUpdate, OptionRevoke, OptionRenewal]

theorem entryOk_revoke (pd : String → Option Int) (fx : String → Bool)
    (full : List (String × String)) (v : String) :
    entryOk pd fx full (OptionRevoke, v) = (parseBool v).isSome := by
  simp [entryOk, OptionFormat, OptionUpdate, OptionRevoke]

theorem entryOk_tpl (pd : String → Option Int) (fx : String → Bool)
    (full : List (String × String)) (v : String) :
    entryOk pd fx full (OptionTemplatePath, v) = fx v := by
  simp [entryOk, OptionFormat, OptionUpdate, OptionRevoke, OptionRenewal,
    OptionFilename, OptionCommonName, OptionTemplatePath]

theorem entryErr_fmt (full : List (String × String)) (v : String) :
    entryErr full (OptionFormat, v) =
      .InvalidFormat (optFetch full OptionFormat) := by
  simp [entryErr]

theorem entryErr_update (full : List (String × String)) (v : String) :
    entryErr full (OptionUpdate, v) = .InvalidDuration v := by
  simp [entryErr, OptionFormat, OptionUpdate]

theorem entryErr_renewal (full : List (String × String)) (v : String) :
    entryErr full (OptionRenewal, v) = .InvalidBoolean OptionRenewal v := by
  simp [entryErr, OptionFormat, OptionUpdate, OptionRevoke, OptionRenewal]

theorem entryErr_revoke (full : List (String × String)) (v : String) :
    entryErr full (OptionRevoke, v) = .InvalidBoolean OptionRevoke v := by
  simp [entryErr, OptionFormat, OptionUpdate, OptionRevoke]

theorem entryErr_tpl (full : List (String × String)) (v : String) :
    entryErr full (OptionTemplatePath, v) = .TemplateNotFound v := by
  simp [entryErr, OptionFormat, OptionUpdate, OptionRevoke, OptionRenewal,
    OptionFilename, OptionCommonName, OptionTemplatePath]

/-! ## Claim theorems -/

/-- C1: for every descriptor whose `resource` is outside the fixed set
{pki, aws, secret, mysql, tpl, postgres, cassandra}, `IsValid` fails with
`UnsupportedResourceType` carrying the offending value and leaves the
descriptor untouched, regardless of `options` and `name` (the check runs
first and short-circuits); for every `resource` inside the set, `IsValid`
never reports `UnsupportedResourceType`. -/
theorem C1_resource_type_check (pd : String → Option Int) (fx : String → Bool)
    (r : VaultResource) :
    (r.resource ∉ ["pki", "aws", "secret", "mysql", "tpl", "postgres",
        "cassandra"] →
      IsValid pd fx r = (some (.UnsupportedResourceType r.resource), r)) ∧
    (r.resource ∈ ["pki", "aws", "secret", "mysql", "tpl", "postgres",
        "cassandra"] →
      ∀ v, (IsValid pd fx r).1 ≠ some (.UnsupportedResourceType v)) := by
  constructor
  · intro hnot
    apply IsValid_bad_resource
    cases hvr : validResources r.resource
    · rfl
    · exact absurd ((validResources_iff_mem r.resource).mp hvr) hnot
  · intro hmem v
    have hv : validResources r.resource = true :=
      (validResources_iff_mem r.resource).mpr hmem
    cases herr : (isValidOptions pd fx r).1 with
    | some e =>
      rw [IsValid_fst_optErr pd fx r hv e herr]
      intro hcontra
      injection hcontra with hcontra
      have hkind := goOptions_err_isOptionErr pd fx r.options r.options r e
        herr
      rw [hcontra] at hkind
      simp [VErr.isOptionErr] at hkind
    | none =>
      rw [IsValid_fst_after_options pd fx r hv herr]
      intro hcontra
      rcases isValidResource_err r _ hcontra with hbad | hbad <;> simp at hbad

/-- Witness for C1: the concrete descriptor `rBogus` is rejected with
`UnsupportedResourceType "bogus"`. -/
theorem C1_resource_type_check_w :
    IsValid pdTest fxTest rBogus =
      (some (.UnsupportedResourceType "bogus"), rBogus) :=
  (C1_resource_type_check pdTest fxTest rBogus).1 (by decide)

/-- C4: once the resource-type check and the option pass both succeed, a
`pki` descriptor is rejected with `MissingRequiredOption` exactly when the
`cn` key is absent, a `tpl` descriptor exactly when the `tpl` key is absent
(values are never inspected), and every other valid resource type passes
with no further requirement. -/
theorem C4_required_options (pd : String → Option Int) (fx : String → Bool)
    (r : VaultResource) (hv : validResources r.resource = true)
    (hok : (isValidOptions pd fx r).1 = none) :
    (r.resource = "pki" →
      (optLookup r.options OptionCommonName = none →
        (IsValid pd fx r).1 =
          some (.MissingRequiredOption "pki" OptionCommonName)) ∧
      ((optLookup r.options OptionCommonName).isSome = true →
        (IsValid pd fx r).1 = none)) ∧
    (r.resource = "tpl" →
      (optLookup r.options OptionTemplatePath = none →
        (IsValid pd fx r).1 =
          some (.MissingRequiredOption "tpl" OptionTemplatePath)) ∧
      ((optLookup r.options OptionTemplatePath).isSome = true →
        (IsValid pd fx r).1 = none)) ∧
    (r.resource ≠ "pki" → r.resource ≠ "tpl" → (IsValid pd fx r).1 = none) := by
  rw [IsValid_fst_after_options pd fx r hv hok]
  refine ⟨?_, ?_, ?_⟩
  · intro hres
    constructor
    · intro hnone
      simp [isValidResource, hres, hnone]
    · intro hsome
      simp [isValidResource, hres, hsome]
  · intro hres
    constructor
    · intro hnone
      simp [isValidResource, hres, hnone]
    · intro hsome
      simp [isValidResource, hres, hsome]
  · intro h1 h2
    simp [isValidResource, h1, h2]

/-- Witness for C4: the concrete `pki` descriptor `rPkiNoCn`, which lacks
`cn`, is rejected with the missing-option error. -/
theorem C4_required_options_w :
    (IsValid pdTest fxTest rPkiNoCn).1 =
      some (.MissingRequiredOption "pki" OptionCommonName) :=
  ((C4_required_options pdTest fxTest rPkiNoCn (by decide) (by decide)).1
    (by decide)).1 (by decide)

/-- C6: `GetFilename` is pure and total: with an `fn` option it returns the
value verbatim (no sanitization, empty strings and path separators
included), without it it returns `name.resource`. -/
theorem C6_get_filename (r : VaultResource) :
    (∀ v, optLookup r.options OptionFilename = some v → GetFilename r = v) ∧
    (optLookup r.options OptionFilename = none →
      GetFilename r = r.name ++ "." ++ r.resource) := by
  constructor
  · intro v hv
    simp [GetFilename, hv]
  · intro hn
    simp [GetFilename, hn]

/-- Witness for C6: a path-separator filename override is returned verbatim
and the default is `name.resource`. -/
theorem C6_get_filename_w :
    GetFilename rFn = "/a/b" ∧ GetFilename rBase = "db.secret" :=
  ⟨(C6_get_filename rFn).1 "/a/b" (by decide),
   (C6_get_filename rBase).2 (by decide)⟩

/-- C10: a `pki` descriptor whose options bind `cn` to the empty string
passes validation when all other option checks pass: neither the option
pass (whose per-entry check on `cn` is vacuous for every value) nor the
required-option check inspects the value of `cn`. -/
theorem C10_empty_common_name (pd : String → Option Int) (fx : String → Bool)
    (r : VaultResource) (hres : r.resource = "pki")
    (hcn : optLookup r.options OptionCommonName = some "")
    (hoth : ∀ e ∈ r.options, e.1 ≠ OptionCommonName →
      entryOk pd fx r.options e = true) :
    (∀ v, entryOk pd fx r.options (OptionCommonName, v) = true) ∧
    (IsValid pd fx r).1 = none := by
  have hcnok : ∀ v, entryOk pd fx r.options (OptionCommonName, v) = true := by
    intro v
    apply entryOk_of_other <;> decide
  refine ⟨hcnok, ?_⟩
  rw [IsValid_ok_iff]
  refine ⟨by rw [hres]; decide, ?_, ?_⟩
  · intro e he
    obtain ⟨k', w⟩ := e
    by_cases hk : k' = OptionCommonName
    · subst hk
      exact hcnok w
    · exact hoth (k', w) he hk
  · simp [isValidResource, hres, hcn]

/-- Witness for C10: the concrete `pki` descriptor with `cn` bound to the
empty string validates. -/
theorem C10_empty_common_name_w :
    (IsValid pdTest fxTest rPkiEmptyCn).1 = none :=
  (C10_empty_common_name pdTest fxTest rPkiEmptyCn (by decide) (by decide)
    (by decide)).2

/-- C2: with a valid resource type and every other option passing its
check, an `fmt` option whose value is outside `yaml|json|ini|txt|cert|csv`
makes `IsValid` fail with `InvalidFormat` carrying that value, and a value
inside the enumeration is cached verbatim into `format`; without an `fmt`
key the `format` field is left at its prior value, whose default is
`yaml`. -/
theorem C2_format_option (pd : String → Option Int) (fx : String → Bool)
    (r : VaultResource) (hv : validResources r.resource = true)
    (hnd : (r.options.map Prod.fst).Nodup) :
    (∀ v, optLookup r.options OptionFormat = some v →
      (∀ e ∈ r.options, e.1 ≠ OptionFormat →
        entryOk pd fx r.options e = true) →
      (resourceFormatMatch v = false →
        (IsValid pd fx r).1 = some (.InvalidFormat v)) ∧
      (resourceFormatMatch v = true → (IsValid pd fx r).2.format = v)) ∧
    (optLookup r.options OptionFormat = none →
      (IsValid pd fx r).2.format = r.format) ∧
    defaultVaultResource.format = "yaml" := by
  refine ⟨?_, ?_, rfl⟩
  · intro v hlook hoth
    have hfetch : optFetch r.options OptionFormat = v := by
      simp [optFetch, hlook]
    constructor
    · intro hbadv
      have hbad : entryOk pd fx r.options (OptionFormat, v) = false := by
        rw [entryOk_fmt, hfetch, hbadv]
      have herr : (isValidOptions pd fx r).1 =
          some (entryErr r.options (OptionFormat, v)) :=
        goOptions_fail pd fx r.options r hnd
          (mem_of_optLookup_eq_some hlook) hbad hoth
      rw [entryErr_fmt, hfetch] at herr
      exact IsValid_fst_optErr pd fx r hv _ herr
    · intro hgoodv
      have hkok : entryOk pd fx r.options (OptionFormat, v) = true := by
        rw [entryOk_fmt, hfetch, hgoodv]
      have hok : (isValidOptions pd fx r).1 = none :=
        (isValidOptions_ok_iff pd fx r).mpr
          (allOk_of_othersOk pd fx hnd hlook hoth hkok)
      rw [IsValid_snd pd fx r hv, isValidOptions_format pd fx r hok,
        lastVal_eq_optLookup hnd, hlook]
  · intro hnone
    rw [IsValid_snd pd fx r hv]
    have hnokey : ∀ e ∈ r.options, e.1 ≠ OptionFormat := by
      intro e he heq
      exact (optLookup_eq_none_iff.mp hnone)
        (List.mem_map.mpr ⟨e, he, heq⟩)
    exact goOptions_format_no_key pd fx r.options r.options r hnokey

/-- Witness for C2: the concrete descriptor `rFmt` caches its `fmt` option
value `json`. -/
theorem C2_format_option_w : (IsValid pdTest fxTest rFmt).2.format = "json" :=
  ((C2_format_option pdTest fxTest rFmt (by decide) (by decide)).1 "json"
    (by decide) (by decide)).2 (by decide)

/-- C3: with a valid resource type and every other option passing its
check: an `up` value the duration parser accepts is cached into `update`
and a rejected value fails `IsValid` with `InvalidDuration`; an `rn` or
`rv` value `strconv.ParseBool` accepts is cached into `renewable` or
`revoked` respectively, and a rejected value fails `IsValid` with the
corresponding `InvalidBoolean`. -/
theorem C3_typed_options (pd : String → Option Int) (fx : String → Bool)
    (r : VaultResource) (hv : validResources r.resource = true)
    (hnd : (r.options.map Prod.fst).Nodup) :
    (∀ v, optLookup r.options OptionUpdate = some v →
      (∀ e ∈ r.options, e.1 ≠ OptionUpdate →
        entryOk pd fx r.options e = true) →
      (∀ d, pd v = some d → (IsValid pd fx r).2.update = d) ∧
      (pd v = none → (IsValid pd fx r).1 = some (.InvalidDuration v))) ∧
    (∀ v, optLookup r.options OptionRenewal = some v →
      (∀ e ∈ r.options, e.1 ≠ OptionRenewal →
        entryOk pd fx r.options e = true) →
      (∀ b, parseBool v = some b → (IsValid pd fx r).2.renewable = b) ∧
      (parseBool v = none →
        (IsValid pd fx r).1 = some (.InvalidBoolean OptionRenewal v))) ∧
    (∀ v, optLookup r.options OptionRevoke = some v →
      (∀ e ∈ r.options, e.1 ≠ OptionRevoke →
        entryOk pd fx r.options e = true) →
      (∀ b, parseBool v = some b → (IsValid pd fx r).2.revoked = b) ∧
      (parseBool v = none →
        (IsValid pd fx r).1 = some (.InvalidBoolean OptionRevoke v))) := by
  refine ⟨?_, ?_, ?_⟩
  · intro v hlook hoth
    constructor
    · intro d hd
      have hkok : entryOk pd fx r.options (OptionUpdate, v) = true := by
        rw [entryOk_update, hd]
        rfl
      have hok : (isValidOptions pd fx r).1 = none :=
        (isValidOptions_ok_iff pd fx r).mpr
          (allOk_of_othersOk pd fx hnd hlook hoth hkok)
      rw [IsValid_snd pd fx r hv, isValidOptions_update pd fx r hok,
        lastVal_eq_optLookup hnd, hlook]
      simp [hd]
    · intro hn
      have hbad : entryOk pd fx r.options (OptionUpdate, v) = false := by
        rw [entryOk_update, hn]
        rfl
      have herr : (isValidOptions pd fx r).1 =
          some (entryErr r.options (OptionUpdate, v)) :=
        goOptions_fail pd fx r.options r hnd
          (mem_of_optLookup_eq_some hlook) hbad hoth
      rw [entryErr_update] at herr
      exact IsValid_fst_optErr pd fx r hv _ herr
  · intro v hlook hoth
    constructor
    · intro b hb
      have hkok : entryOk pd fx r.options (OptionRenewal, v) = true := by
        rw [entryOk_renewal, hb]
        rfl
      have hok : (isValidOptions pd fx r).1 = none :=
        (isValidOptions_ok_iff pd fx r).mpr
          (allOk_of_othersOk pd fx hnd hlook hoth hkok)
      rw [IsValid_snd pd fx r hv, isValidOptions_renewable pd fx r hok,
        lastVal_eq_optLookup hnd, hlook]
      simp [hb]
    · intro hn
      have hbad : entryOk pd fx r.options (OptionRenewal, v) = false := by
        rw [entryOk_renewal, hn]
        rfl
      have herr : (isValidOptions pd fx r).1 =
          some (entryErr r.options (OptionRenewal, v)) :=
        goOptions_fail pd fx r.options r hnd
          (mem_of_optLookup_eq_some hlook) hbad hoth
      rw [entryErr_renewal] at herr
      exact IsValid_fst_optErr pd fx r hv _ herr
  · intro v hlook hoth
    constructor
    · intro b hb
      have hkok : entryOk pd fx r.options (OptionRevoke, v) = true := by
        rw [entryOk_revoke, hb]
        rfl
      have hok : (isValidOptions pd fx r).1 = none :=
        (isValidOptions_ok_iff pd fx r).mpr
          (allOk_of_othersOk pd fx hnd hlook hoth hkok)
      rw [IsValid_snd pd fx r hv, isValidOptions_revoked pd fx r hok,
        lastVal_eq_optLookup hnd, hlook]
      simp [hb]
    · intro hn
      have hbad : entryOk pd fx r.options (OptionRevoke, v) = false := by
        rw [entryOk_revoke, hn]
        rfl
      have herr : (isValidOptions pd fx r).1 =
          some (entryErr r.options (OptionRevoke, v)) :=
        goOptions_fail pd fx r.options r hnd
          (mem_of_optLookup_eq_some hlook) hbad hoth
      rw [entryErr_revoke] at herr
      exact IsValid_fst_optErr pd fx r hv _ herr

/-- Witness for C3: the concrete descriptor `rTyped` caches `up = 2h` (in
nanoseconds), `rn = true` and `rv = false`. -/
theorem C3_typed_options_w :
    (IsValid pdTest fxTest rTyped).2.update = 7200000000000 ∧
    (IsValid pdTest fxTest rTyped).2.renewable = true ∧
    (IsValid pdTest fxTest rTyped).2.revoked = false :=
  ⟨((C3_typed_options pdTest fxTest rTyped (by decide) (by decide)).1 "2h"
      (by decide) (by decide)).1 7200000000000 (by decide),
   ((C3_typed_options pdTest fxTest rTyped (by decide) (by decide)).2.1
      "true" (by decide) (by decide)).1 true (by decide),
   ((C3_typed_options pdTest fxTest rTyped (by decide) (by decide)).2.2
      "false" (by decide) (by decide)).1 false (by decide)⟩

/-- C5: with the filesystem as the oracle `fx` (the `fileExists` helper
lives outside this file), a `tpl` option naming a path the oracle rejects
makes `IsValid` fail with `TemplateNotFound` carrying the path, provided
the resource type is valid and every other option passes; a `tpl`
descriptor whose `tpl` option names a path the oracle accepts validates. -/
theorem C5_template_path (pd : String → Option Int) (fx : String → Bool)
    (r : VaultResource) (hnd : (r.options.map Prod.fst).Nodup) :
    ∀ p, optLookup r.options OptionTemplatePath = some p →
      (∀ e ∈ r.options, e.1 ≠ OptionTemplatePath →
        entryOk pd fx r.options e = true) →
      (validResources r.resource = true → fx p = false →
        (IsValid pd fx r).1 = some (.TemplateNotFound p)) ∧
      (r.resource = "tpl" → fx p = true → (IsValid pd fx r).1 = none) := by
  intro p hlook hoth
  constructor
  · intro hv hfx
    have hbad : entryOk pd fx r.options (OptionTemplatePath, p) = false := by
      rw [entryOk_tpl, hfx]
    have herr : (isValidOptions pd fx r).1 =
        some (entryErr r.options (OptionTemplatePath, p)) :=
      goOptions_fail pd fx r.options r hnd
        (mem_of_optLookup_eq_some hlook) hbad hoth
    rw [entryErr_tpl] at herr
    exact IsValid_fst_optErr pd fx r hv _ herr
  · intro hres hfx
    have hv : validResources r.resource = true := by rw [hres]; decide
    have hkok : entryOk pd fx r.options (OptionTemplatePath, p) = true := by
      rw [entryOk_tpl, hfx]
    rw [IsValid_ok_iff]
    refine ⟨hv, allOk_of_othersOk pd fx hnd hlook hoth hkok, ?_⟩
    simp [isValidResource, hres, hlook]

/-- Witness for C5: the concrete `tpl` descriptor `rTpl`, whose template
path exists under the oracle `fxTest`, validates. -/
theorem C5_template_path_w : (IsValid pdTest fxTest rTpl).1 = none :=
  ((C5_template_path pdTest fxTest rTpl (by decide) "/etc/template.tpl"
    (by decide) (by decide)).2) (by decide) (by decide)

/-- C7: validation is idempotent: if `IsValid` succeeds on a descriptor,
running it again on the descriptor it returned succeeds as well and leaves
every field, in particular the cached `format`, `renewable`, `revoked` and
`update`, unchanged. -/
theorem C7_idempotent (pd : String → Option Int) (fx : String → Bool)
    (r : VaultResource) (h : (IsValid pd fx r).1 = none) :
    IsValid pd fx ((IsValid pd fx r).2) = (none, (IsValid pd fx r).2) := by
  obtain ⟨hv, hall, hres⟩ := (IsValid_ok_iff pd fx r).mp h
  have hok : (isValidOptions pd fx r).1 = none :=
    (isValidOptions_ok_iff pd fx r).mpr hall
  set r1 := (IsValid pd fx r).2 with hr1
  have hsnd : r1 = (isValidOptions pd fx r).2 := by
    rw [hr1, IsValid_snd pd fx r hv]
  have hcore := isValidOptions_core pd fx r
  have hres1 : r1.resource = r.resource := by rw [hsnd]; exact hcore.1
  have hname1 : r1.name = r.name := by rw [hsnd]; exact hcore.2.1
  have hopts1 : r1.options = r.options := by rw [hsnd]; exact hcore.2.2
  have hv1 : validResources r1.resource = true := by rw [hres1]; exact hv
  have hall1 : ∀ e ∈ r1.options, entryOk pd fx r1.options e = true := by
    rw [hopts1]; exact hall
  have hok1 : (isValidOptions pd fx r1).1 = none :=
    (isValidOptions_ok_iff pd fx r1).mpr hall1
  have hcore1 := isValidOptions_core pd fx r1
  have hfmt : (isValidOptions pd fx r1).2.format = r1.format := by
    rw [isValidOptions_format pd fx r1 hok1, hopts1]
    cases hl : lastVal r.options OptionFormat with
    | some v =>
      have h1 : r1.format = v := by
        rw [hsnd, isValidOptions_format pd fx r hok, hl]
      exact h1.symm
    | none => rfl
  have hupd : (isValidOptions pd fx r1).2.update = r1.update := by
    rw [isValidOptions_update pd fx r1 hok1, hopts1]
    cases hl : lastVal r.options OptionUpdate with
    | some v =>
      have h1 : r1.update = (pd v).getD 0 := by
        rw [hsnd, isValidOptions_update pd fx r hok, hl]
      exact h1.symm
    | none => rfl
  have hrnw : (isValidOptions pd fx r1).2.renewable = r1.renewable := by
    rw [isValidOptions_renewable pd fx r1 hok1, hopts1]
    cases hl : lastVal r.options OptionRenewal with
    | some v =>
      have h1 : r1.renewable = (parseBool v).getD false := by
        rw [hsnd, isValidOptions_renewable pd fx r hok, hl]
      exact h1.symm
    | none => rfl
  have hrvk : (isValidOptions pd fx r1).2.revoked = r1.revoked := by
    rw [isValidOptions_revoked pd fx r1 hok1, hopts1]
    cases hl : lastVal r.options OptionRevoke with
    | some v =>
      have h1 : r1.revoked = (parseBool v).getD false := by
        rw [hsnd, isValidOptions_revoked pd fx r hok, hl]
      exact h1.symm
    | none => rfl
  have hstate : (isValidOptions pd fx r1).2 = r1 := by
    apply VaultResource.ext
    · exact hcore1.1
    · exact hcore1.2.1
    · exact hfmt
    · exact hrnw
    · exact hrvk
    · exact hupd
    · exact hcore1.2.2
  have hfst : (IsValid pd fx r1).1 = none := by
    rw [IsValid_ok_iff]
    refine ⟨hv1, hall1, ?_⟩
    rw [isValidResource_congr r1 r hres1 hopts1]
    exact hres
  have hsnd2 : (IsValid pd fx r1).2 = r1 := by
    rw [IsValid_snd pd fx r1 hv1]
    exact hstate
  exact Prod.ext_iff.mpr ⟨hfst, hsnd2⟩

/-- Witness for C7: rerunning `IsValid` on the descriptor produced by a
successful validation of the concrete `rTyped` succeeds and changes
nothing. -/
theorem C7_idempotent_w :
    IsValid pdTest fxTest ((IsValid pdTest fxTest rTyped).2) =
      (none, (IsValid pdTest fxTest rTyped).2) :=
  C7_idempotent pdTest fxTest rTyped (by decide)

/-- C8 counterexample: on the concrete descriptor `rPartial` (valid `fmt`
entry iterated before an invalid `up` entry) `IsValid` returns an error,
yet the cached `format` has been changed from its prior value `yaml` to
`json`, so the rejected descriptor is left partially updated. -/
theorem C8_counterexample :
    (IsValid pdTest fxTest rPartial).1 = some (.InvalidDuration "abc") ∧
    rPartial.format = "yaml" ∧
    (IsValid pdTest fxTest rPartial).2.format = "json" := by
  decide

/-- C8 amended: every call to `IsValid` reports at most one cause, and the
validator never mutates `options`, `resource` or `name`; however, typed
fields parsed before the failing entry keep their newly cached values, so a
rejected descriptor may be left partially updated. -/
theorem C8_single_cause_amended (pd : String → Option Int)
    (fx : String → Bool) (r : VaultResource) :
    ((IsValid pd fx r).1 = none ∨
      ∃ e, (IsValid pd fx r).1 = some e ∧
        ∀ e2, (IsValid pd fx r).1 = some e2 → e2 = e) ∧
    (IsValid pd fx r).2.options = r.options ∧
    (IsValid pd fx r).2.resource = r.resource ∧
    (IsValid pd fx r).2.name = r.name := by
  refine ⟨?_, (IsValid_core pd fx r).2.2, (IsValid_core pd fx r).1,
    (IsValid_core pd fx r).2.1⟩
  cases h : (IsValid pd fx r).1 with
  | none => exact Or.inl rfl
  | some e =>
    refine Or.inr ⟨e, rfl, fun e2 h2 => ?_⟩
    injection h2 with h2
    exact h2.symm

/-- C9: the outcome of `IsValid` does not depend on the iteration order of
the option map: for two iteration orders (permutations with the unique keys
of a Go map) validation succeeds under one exactly when it succeeds under
the other, with identical cached typed fields on success; and when some
option value is invalid (and the resource type valid) it fails under every
order with some option-typing error, though not necessarily the same
one. -/
theorem C9_iteration_order (pd : String → Option Int) (fx : String → Bool)
    (r : VaultResource) (l₁ l₂ : List (String × String))
    (hperm : l₁.Perm l₂) (hnd : (l₁.map Prod.fst).Nodup) :
    (((IsValid pd fx { r with options := l₁ }).1 = none) ↔
      ((IsValid pd fx { r with options := l₂ }).1 = none)) ∧
    ((IsValid pd fx { r with options := l₁ }).1 = none →
      (IsValid pd fx { r with options := l₁ }).2.format =
          (IsValid pd fx { r with options := l₂ }).2.format ∧
        (IsValid pd fx { r with options := l₁ }).2.renewable =
          (IsValid pd fx { r with options := l₂ }).2.renewable ∧
        (IsValid pd fx { r with options := l₁ }).2.revoked =
          (IsValid pd fx { r with options := l₂ }).2.revoked ∧
        (IsValid pd fx { r with options := l₁ }).2.update =
          (IsValid pd fx { r with options := l₂ }).2.update) ∧
    ((validResources r.resource = true ∧
        ¬ ∀ e ∈ l₁, entryOk pd fx l₁ e = true) →
      ∃ e₁ e₂, (IsValid pd fx { r with options := l₁ }).1 = some e₁ ∧
        e₁.isOptionErr = true ∧
        (IsValid pd fx { r with options := l₂ }).1 = some e₂ ∧
        e₂.isOptionErr = true) := by
  have hnd2 : (l₂.map Prod.fst).Nodup :=
    ((hperm.map Prod.fst).nodup_iff).mp hnd
  have hfmtL : optLookup l₁ OptionFormat = optLookup l₂ OptionFormat :=
    optLookup_perm hperm hnd OptionFormat
  have hupL : optLookup l₁ OptionUpdate = optLookup l₂ OptionUpdate :=
    optLookup_perm hperm hnd OptionUpdate
  have hrnL : optLookup l₁ OptionRenewal = optLookup l₂ OptionRenewal :=
    optLookup_perm hperm hnd OptionRenewal
  have hrvL : optLookup l₁ OptionRevoke = optLookup l₂ OptionRevoke :=
    optLookup_perm hperm hnd OptionRevoke
  have hcnL : optLookup l₁ OptionCommonName = optLookup l₂ OptionCommonName :=
    optLookup_perm hperm hnd OptionCommonName
  have htplL : optLookup l₁ OptionTemplatePath =
      optLookup l₂ OptionTemplatePath :=
    optLookup_perm hperm hnd OptionTemplatePath
  have hallIff : (∀ e ∈ l₁, entryOk pd fx l₁ e = true) ↔
      (∀ e ∈ l₂, entryOk pd fx l₂ e = true) := by
    constructor
    · intro hall e he
      rw [← entryOk_congr_full pd fx l₁ l₂ hfmtL e]
      exact hall e (hperm.mem_iff.mpr he)
    · intro hall e he
      rw [entryOk_congr_full pd fx l₁ l₂ hfmtL e]
      exact hall e (hperm.mem_iff.mp he)
  have hresEq : isValidResource { r with options := l₁ } =
      isValidResource { r with options := l₂ } := by
    simp only [isValidResource]
    rw [hcnL, htplL]
  have hiff1 := IsValid_ok_iff pd fx { r with options := l₁ }
  have hiff2 := IsValid_ok_iff pd fx { r with options := l₂ }
  refine ⟨?_, ?_, ?_⟩
  · rw [hiff1, hiff2]
    constructor
    · rintro ⟨ha, hb, hc⟩
      exact ⟨ha, hallIff.mp hb, by rw [← hresEq]; exact hc⟩
    · rintro ⟨ha, hb, hc⟩
      exact ⟨ha, hallIff.mpr hb, by rw [hresEq]; exact hc⟩
  · intro hsucc1
    obtain ⟨hv, hall1, -⟩ := hiff1.mp hsucc1
    have hok1 : (isValidOptions pd fx { r with options := l₁ }).1 = none :=
      (isValidOptions_ok_iff pd fx _).mpr hall1
    have hall2 : ∀ e ∈ l₂, entryOk pd fx l₂ e = true := hallIff.mp hall1
    have hok2 : (isValidOptions pd fx { r with options := l₂ }).1 = none :=
      (isValidOptions_ok_iff pd fx _).mpr hall2
    have hv2 : validResources ({ r with options := l₂ } :
        VaultResource).resource = true := hv
    rw [IsValid_snd pd fx _ hv, IsValid_snd pd fx _ hv2]
    refine ⟨?_, ?_, ?_, ?_⟩
    · rw [isValidOptions_format pd fx _ hok1,
        isValidOptions_format pd fx _ hok2]
      show (match lastVal l₁ OptionFormat with
          | some v => v
          | none => r.format) =
        (match lastVal l₂ OptionFormat with
          | some v => v
          | none => r.format)
      rw [lastVal_eq_optLookup hnd, lastVal_eq_optLookup hnd2, hfmtL]
    · rw [isValidOptions_renewable pd fx _ hok1,
        isValidOptions_renewable pd fx _ hok2]
      show (match lastVal l₁ OptionRenewal with
          | some v => (parseBool v).getD false
          | none => r.renewable) =
        (match lastVal l₂ OptionRenewal with
          | some v => (parseBool v).getD false
          | none => r.renewable)
      rw [lastVal_eq_optLookup hnd, lastVal_eq_optLookup hnd2, hrnL]
    · rw [isValidOptions_revoked pd fx _ hok1,
        isValidOptions_revoked pd fx _ hok2]
      show (match lastVal l₁ OptionRevoke with
          | some v => (parseBool v).getD false
          | none => r.revoked) =
        (match lastVal l₂ OptionRevoke with
          | some v => (parseBool v).getD false
          | none => r.revoked)
      rw [lastVal_eq_optLookup hnd, lastVal_eq_optLookup hnd2, hrvL]
    · rw [isValidOptions_update pd fx _ hok1,
        isValidOptions_update pd fx _ hok2]
      show (match lastVal l₁ OptionUpdate with
          | some v => (pd v).getD 0
          | none => r.update) =
        (match lastVal l₂ OptionUpdate with
          | some v => (pd v).getD 0
          | none => r.update)
      rw [lastVal_eq_optLookup hnd, lastVal_eq_optLookup hnd2, hupL]
  · rintro ⟨hv, hnall⟩
    have hnall2 : ¬ ∀ e ∈ l₂, entryOk pd fx l₂ e = true := fun hh =>
      hnall (hallIff.mpr hh)
    cases herr1 : (isValidOptions pd fx { r with options := l₁ }).1 with
    | none =>
      exact absurd ((isValidOptions_ok_iff pd fx _).mp herr1) hnall
    | some e1 =>
      cases herr2 : (isValidOptions pd fx { r with options := l₂ }).1 with
      | none =>
        exact absurd ((isValidOptions_ok_iff pd fx _).mp herr2) hnall2
      | some e2 =>
        refine ⟨e1, e2,
          IsValid_fst_optErr pd fx { r with options := l₁ } hv e1 herr1, ?_,
          IsValid_fst_optErr pd fx { r with options := l₂ } hv e2 herr2, ?_⟩
        · exact goOptions_err_isOptionErr pd fx l₁ l₁ _ e1 herr1
        · exact goOptions_err_isOptionErr pd fx l₂ l₂ _ e2 herr2

/-- Witness for C9: the two concrete iteration orders `l1W` and `l2W` of
the same option map validate identically on a `secret` descriptor. -/
theorem C9_iteration_order_w :
    (IsValid pdTest fxTest { rBase with options := l1W }).1 = none ↔
      (IsValid pdTest fxTest { rBase with options := l2W }).1 = none :=
  (C9_iteration_order pdTest fxTest rBase l1W l2W (by decide) (by decide)).1
